import Mathlib

/-!
Verification development for the MCP Context Library memory engine
(dual-store write path, semantic search filtering, document decomposition,
document reconstruction, and D1-to-Vectorize reconciliation).

The definitions below are shallow embeddings of the TypeScript source:
`src/utils/vectorize.ts` (storeMemory, searchMemories,
restoreMissingMemoriesToVectorize, updateMemoryVector, deleteVectorById),
`src/utils/db.ts` (storeMemoryInD1 and the memories table), and the MCP
tool handlers in `src/index.ts` (add_to_memory, remember_artifact,
reconstruct_artifact).  External services (Workers AI embeddings, the
Vectorize index, the D1 database) are modelled by explicit state and by
failure schedules, since every call to them is a possible failure point.
-/

/-! ### Semantic search (`searchMemories` in src/utils/vectorize.ts) -/

/-- A match returned by `env.VECTORIZE.query`: an id, a similarity score and
the optional `metadata.content` string.  Scores are modelled as rationals. -/
structure VectorizeMatch where
  id : String
  score : ℚ
  metadataContent : Option String
deriving DecidableEq, Repr

/-- A processed search result, as returned by `searchMemories`. -/
structure MemoryResult where
  content : String
  score : ℚ
  id : String
deriving DecidableEq, Repr

/-- `const MINIMUM_SIMILARITY_SCORE = 0.5` in src/utils/vectorize.ts. -/
def MINIMUM_SIMILARITY_SCORE : ℚ := mkRat 1 2

/-- The per-match mapping step of `searchMemories`: resolve the content from
`match.metadata.content` when it is a string, otherwise substitute the
placeholder containing the id (or the bare placeholder when the id is the
empty string, which is falsy in JavaScript). -/
def matchToResult (m : VectorizeMatch) : MemoryResult :=
  { content :=
      match m.metadataContent with
      | some s => s
      | none =>
          if m.id ≠ "" then "Missing memory content (ID: " ++ m.id ++ ")"
          else "Missing memory content"
    score := m.score
    id := m.id }

/-- The ordering used by `memories.sort((a, b) => b.score - a.score)`:
`a` may come before `b` exactly when the comparator is nonpositive. -/
def scoreDesc (a b : MemoryResult) : Prop := b.score ≤ a.score

instance : DecidableRel scoreDesc := fun a b =>
  inferInstanceAs (Decidable (b.score ≤ a.score))

/-- The result-processing pipeline of `searchMemories`: return `[]` on no
matches, otherwise keep matches with `score > MINIMUM_SIMILARITY_SCORE`,
map them to results, and sort by descending score. -/
def searchMemories (ms : List VectorizeMatch) : List MemoryResult :=
  if ms.isEmpty then []
  else
    List.insertionSort scoreDesc
      ((ms.filter (fun m => MINIMUM_SIMILARITY_SCORE < m.score)).map matchToResult)

/-! ### The D1 relational write (`storeMemoryInD1` in src/utils/db.ts) -/

/-- A row of the D1 `memories` table as created by `initializeDatabase`:
`(id TEXT PRIMARY KEY, userId TEXT NOT NULL, content TEXT NOT NULL,
created_at TEXT DEFAULT CURRENT_TIMESTAMP)`.  The `created_at` column is
filled by the database, not by the caller, so it is omitted from the
caller-supplied row data. -/
structure D1MemoriesRow where
  id : String
  userId : String
  content : String
deriving DecidableEq, Repr

/-- `storeMemoryInD1` in src/utils/db.ts: binds exactly
`(memoryId, userId, content)` into
`INSERT INTO memories (id, userId, content) VALUES (?, ?, ?)`. -/
def storeMemoryInD1 (content userId memoryId : String) : D1MemoriesRow :=
  { id := memoryId, userId := userId, content := content }

/-- The relational insert performed by the `add_to_memory` handler in
src/index.ts.  The handler invokes
`storeMemoryInD1(thingToRemember, userId, env, memoryId, type, JSON.stringify(metadata))`,
but `storeMemoryInD1` as declared in src/utils/db.ts accepts only
`(content, userId, env, memoryId)`, so the `docType` and `metadataJson`
arguments are dropped (JavaScript ignores extra arguments). -/
def addToMemoryRelationalInsert (thingToRemember userId memoryId : String)
    (docType metadataJson : String) : D1MemoriesRow :=
  storeMemoryInD1 thingToRemember userId memoryId

/-! ### Vector deletion (`deleteVectorById` in src/utils/vectorize.ts) -/

/-- The request body sent to `env.VECTORIZE.deleteByIds`: a bare list of
ids.  There is no namespace field anywhere in the request. -/
structure VectorDeleteRequest where
  ids : List String
deriving DecidableEq, Repr

/-- An entry of the Vectorize index, carrying the namespace it was
upserted under (`ns` models the `namespace` field of the source). -/
structure VecIndexEntry where
  id : String
  ns : String
deriving DecidableEq, Repr

/-- `deleteVectorById(memoryId, userId, env)` issues
`env.VECTORIZE.deleteByIds([memoryId])`: the `userId` argument is used only
for logging and never reaches the request. -/
def deleteVectorById (memoryId userId : String) : VectorDeleteRequest :=
  { ids := [memoryId] }

/-- Effect of `deleteByIds` on an index whose engine does not partition ids
per namespace (the hazard case documented in the source comment): every
entry whose id occurs in the request is removed, in every namespace. -/
def applyDeleteByIds (req : VectorDeleteRequest) (index : List VecIndexEntry) :
    List VecIndexEntry :=
  index.filter (fun e => !(req.ids.contains e.id))

/-! ### The dual-store write path as a transition system

`storeMemory` (src/utils/vectorize.ts) generates the id, embeds the text
and upserts into Vectorize; only afterwards does the caller
(`add_to_memory` in src/index.ts, and the section loop and master-index
block of `remember_artifact`) insert the row into D1.  Each external call
may fail, aborting the remaining steps of that store operation. -/

/-- The outcome of one store operation: the first external call that fails,
or `ok` when all of them succeed.  `embedFail` and `vectorFail` abort
before any store was written; `relationalFail` happens after the Vectorize
upsert already succeeded. -/
inductive StoreOutcome where
  | embedFail
  | vectorFail
  | relationalFail
  | ok
deriving DecidableEq, Repr

/-- The ids present in each of the two stores. -/
structure DualStoreState where
  vec : List String
  rel : List String
deriving DecidableEq, Repr

/-- One store operation for a fresh id, with the given outcome.  The
Vectorize upsert precedes the D1 insert, exactly as in the source. -/
def storeStep (s : DualStoreState) (op : String × StoreOutcome) : DualStoreState :=
  match op.2 with
  | .embedFail => s
  | .vectorFail => s
  | .relationalFail => { s with vec := op.1 :: s.vec }
  | .ok => { vec := op.1 :: s.vec, rel := op.1 :: s.rel }

/-- A sequence of store operations (plain memories, artifact sections and
master-index records all follow the same two-step write). -/
def runStorePath (ops : List (String × StoreOutcome)) (s : DualStoreState) :
    DualStoreState :=
  ops.foldl storeStep s

/-- Both stores start empty. -/
def initialState : DualStoreState := ⟨[], []⟩

/-! ### Reconciliation (`restoreMissingMemoriesToVectorize` in
src/utils/vectorize.ts)

The function reads all D1 rows for the user, splits them into chunks of
`CHUNK_SIZE = 10`, checks per chunk which ids already exist in Vectorize,
re-embeds the missing rows one by one (each embedding call may fail and is
then recorded in `errors` instead), batch-upserts the successfully embedded
vectors, and accumulates `restored`.  The outer `try` converts a failing D1
read into a single `unknown` error entry; the chunk-level `try` converts a
failing existence check or batch upsert into one error entry per row of the
chunk.  External behavior is modelled by a `ReconcileEnv` carrying the D1
read result, the embedding values, and a failure schedule for each kind of
external call. -/

/-- A D1 row as returned by `getAllMemoriesFromD1`: `SELECT id, content`. -/
structure D1Memory where
  id : String
  content : String
deriving DecidableEq, Repr

/-- A record upserted into Vectorize:
`{id, values, namespace: userId, metadata: {content, type: "memory"}}`
(`ns` models the `namespace` field). -/
structure VectorRecord where
  id : String
  values : List ℚ
  ns : String
  content : String
deriving DecidableEq, Repr

/-- An `{memoryId, error}` entry of the `errors` list. -/
structure RestoreError where
  memoryId : String
  error : String
deriving DecidableEq, Repr

/-- The `{restored, errors}` result record. -/
structure RestoreResult where
  restored : Nat
  errors : List RestoreError
deriving DecidableEq, Repr

/-- The external world seen by one reconciliation call: the D1 read result,
the value produced by a successful embedding call, and, for each kind of
external call, whether it fails (and with which message).  Existence-check
and upsert failures are indexed by chunk number, embedding failures by the
content being embedded. -/
structure ReconcileEnv where
  d1 : Except String (List D1Memory)
  getByIdsFail : Nat → Option String
  embedFail : String → Option String
  upsertFail : Nat → Option String
  embedVal : String → List ℚ

/-- `const CHUNK_SIZE = 10` in the source. -/
def CHUNK_SIZE : Nat := 10

/-- The chunking loop `for (let i = 0; i < memories.length; i += CHUNK_SIZE)
chunks.push(memories.slice(i, i + CHUNK_SIZE))`. -/
def chunksOf {α : Type} : List α → List (List α)
  | [] => []
  | a :: rest =>
      (a :: rest).take CHUNK_SIZE :: chunksOf ((a :: rest).drop CHUNK_SIZE)
termination_by l => l.length
decreasing_by simp [CHUNK_SIZE]; omega

/-- Whether a vector with the given id exists in the index (the batched
`env.VECTORIZE.getByIds` existence check, which is by id and not by
namespace). -/
def vecHasId (st : List VectorRecord) (i : String) : Bool :=
  st.any (fun v => v.id == i)

/-- Upsert of a single record: replaces any record with the same id. -/
def upsertOne (st : List VectorRecord) (v : VectorRecord) : List VectorRecord :=
  (st.filter (fun e => !(e.id == v.id))) ++ [v]

/-- The batched `env.VECTORIZE.upsert(vectorsToUpsert)`. -/
def upsertAll (st : List VectorRecord) (vs : List VectorRecord) : List VectorRecord :=
  vs.foldl upsertOne st

/-- The serial embedding loop over the missing rows of one chunk: a failed
embedding call appends a `Failed to generate embedding` error entry, a
successful one appends the vector record to `vectorsToUpsert`. -/
def embedMissingLoop (env : ReconcileEnv) (userId : String)
    (missing : List D1Memory) : List VectorRecord × List RestoreError :=
  missing.foldl
    (fun acc m =>
      match env.embedFail m.content with
      | some e => (acc.1, acc.2 ++ [⟨m.id, "Failed to generate embedding: " ++ e⟩])
      | none => (acc.1 ++ [⟨m.id, env.embedVal m.content, userId, m.content⟩], acc.2))
    ([], [])

/-- The running state of the chunk loop: the Vectorize index, the restored
counter and the error list. -/
structure ChunkAcc where
  st : List VectorRecord
  restored : Nat
  errors : List RestoreError
deriving DecidableEq, Repr

/-- The body of the chunk loop, including the chunk-level `try`/`catch`: a
failing existence check charges one `Chunk processing failed` entry per row
of the chunk; otherwise the missing rows are embedded, and the batch upsert
either commits (incrementing `restored` by the batch size) or fails, again
charging one entry per row of the chunk while keeping the embedding errors
already recorded. -/
def processChunk (env : ReconcileEnv) (userId : String) (acc : ChunkAcc)
    (idx : Nat) (chunk : List D1Memory) : ChunkAcc :=
  match env.getByIdsFail idx with
  | some e =>
      { acc with
        errors := acc.errors ++
          chunk.map (fun m => ⟨m.id, "Chunk processing failed: " ++ e⟩) }
  | none =>
      let missing := chunk.filter (fun m => !(vecHasId acc.st m.id))
      if missing.isEmpty then acc
      else
        let p := embedMissingLoop env userId missing
        if p.1.isEmpty then { acc with errors := acc.errors ++ p.2 }
        else
          match env.upsertFail idx with
          | some e =>
              { acc with
                errors := (acc.errors ++ p.2) ++
                  chunk.map (fun m => ⟨m.id, "Chunk processing failed: " ++ e⟩) }
          | none =>
              { st := upsertAll acc.st p.1
                restored := acc.restored + p.1.length
                errors := acc.errors ++ p.2 }

/-- The chunk loop itself, over chunks paired with their index. -/
def processChunks (env : ReconcileEnv) (userId : String) :
    List (Nat × List D1Memory) → ChunkAcc → ChunkAcc
  | [], acc => acc
  | (idx, c) :: rest, acc =>
      processChunks env userId rest (processChunk env userId acc idx c)

/-- `restoreMissingMemoriesToVectorize(userId, env)`: returns the final
Vectorize index together with the `{restored, errors}` result.  A failing
D1 read yields the single `unknown` entry produced by the outer `catch`;
an empty row list returns early with `{restored: 0, errors: []}`. -/
def restoreMissingMemoriesToVectorize (env : ReconcileEnv) (userId : String)
    (st : List VectorRecord) : List VectorRecord × RestoreResult :=
  match env.d1 with
  | .error e => (st, ⟨0, [⟨"unknown", "Failed to get memories from D1: " ++ e⟩]⟩)
  | .ok memories =>
      if memories.isEmpty then (st, ⟨0, []⟩)
      else
        let fin := processChunks env userId (chunksOf memories).enum ⟨st, 0, []⟩
        (fin.st, ⟨fin.restored, fin.errors⟩)

/-- An external world in which every call succeeds: the D1 read returns
`rows` and no embedding, existence-check or upsert call fails. -/
def okEnv (rows : List D1Memory) (emb : String → List ℚ) : ReconcileEnv :=
  { d1 := .ok rows
    getByIdsFail := fun _ => none
    embedFail := fun _ => none
    upsertFail := fun _ => none
    embedVal := emb }

/-! ### Document type detection (`detectDocumentType` inside
`remember_artifact` in src/index.ts)

JavaScript `lower.includes(keyword)` is substring containment of the
keyword in the lowercased content. -/

/-- Whether `pat` occurs as a contiguous run inside the character list. -/
def occursIn (pat : List Char) : List Char → Bool
  | [] => pat.isEmpty
  | c :: t => pat.isPrefixOf (c :: t) || occursIn pat t

/-- `lower.includes(keyword)` where `lower` is the already lowercased
character data (`content.toLowerCase()` is modelled as per-character
lowering, which agrees with it on ASCII text). -/
def containsKeyword (lower : List Char) (keyword : String) : Bool :=
  occursIn keyword.toList lower

/-- The `detectDocumentType` helper of `remember_artifact`: an if/else
chain over `content.toLowerCase()`. -/
def detectDocumentType (content : String) : String :=
  let lower := content.toList.map Char.toLower
  if containsKeyword lower "product requirements" ||
     containsKeyword lower "user stories" ||
     containsKeyword lower "acceptance criteria" then "PRD"
  else if containsKeyword lower "technical specification" ||
     containsKeyword lower "architecture" ||
     containsKeyword lower "api reference" then "TechnicalSpec"
  else if containsKeyword lower "feature request" ||
     containsKeyword lower "user story" then "FeatureRequest"
  else if containsKeyword lower "journal" then "Journal"
  else "Documentation"

/-- Modelled from the spec: the ordered rule set of the type-inference
step, one rule per document type, evaluated in the listed order. -/
def documentTypeRules : List (List String × String) :=
  [(["product requirements", "user stories", "acceptance criteria"], "PRD"),
   (["technical specification", "architecture", "api reference"], "TechnicalSpec"),
   (["feature request", "user story"], "FeatureRequest"),
   (["journal"], "Journal")]

/-- Modelled from the spec: case-insensitive keyword scan against the
ordered rule set; the first rule one of whose keywords occurs wins, and
the default is `Documentation`. -/
def inferTypeByRules (content : String) : String :=
  match documentTypeRules.find?
      (fun rule => rule.1.any (fun k =>
        containsKeyword (content.toList.map Char.toLower) k)) with
  | some rule => rule.2
  | none => "Documentation"

/-! ### Document decomposition (`parseDocumentSections` inside
`remember_artifact` in src/index.ts)

String operations are carried out on `List Char` (the character data of
the JavaScript string); `trim`, `split` and `.length` match the
JavaScript behavior for the ASCII inputs the parser deals with. -/

/-- One parsed section `{title, content, type}`; the source field `type`
is a Lean keyword and is called `stype` here. -/
structure DocSection where
  title : String
  content : String
  stype : String
deriving DecidableEq, Repr

/-- JavaScript `String.prototype.trim` on character data. -/
def trimChars (l : List Char) : List Char :=
  ((l.dropWhile Char.isWhitespace).reverse.dropWhile Char.isWhitespace).reverse

/-- JavaScript `split('\n')` on character data. -/
def splitOnNL : List Char → List (List Char)
  | [] => [[]]
  | '\n' :: t => [] :: splitOnNL t
  | c :: t =>
      match splitOnNL t with
      | [] => [[c]]
      | g :: gs => (c :: g) :: gs

/-- JavaScript split on the two-character separator (newline newline):
non-overlapping,
leftmost-first occurrences of the two-character separator. -/
def splitOnBlank : List Char → List (List Char)
  | '\n' :: '\n' :: t => [] :: splitOnBlank t
  | c :: t =>
      match splitOnBlank t with
      | [] => [[c]]
      | g :: gs => (c :: g) :: gs
  | [] => [[]]

/-- `Array.prototype.join('\n')` on character data. -/
def joinNL : List (List Char) → List Char
  | [] => []
  | [g] => g
  | g :: gs => g ++ '\n' :: joinNL gs

/-- After one to three leading `#` markers, the regex `^#{1,3}\s` needs one
whitespace character; when the line ends right after the markers, the
matched whitespace is the newline that separated it from the next line
(`hasNL` says whether such a newline exists). -/
def headerHashTail (hasNL : Bool) : List Char → Nat → Bool
  | [], _ => hasNL
  | c :: rest, k =>
      if c = '#' then (if k < 3 then headerHashTail hasNL rest (k + 1) else false)
      else c.isWhitespace

/-- Whether the multiline regex `^#{1,3}\s` matches at the start of this
line (`hasNL` = the line is followed by a newline in the document). -/
def isHeaderSplitLine (l : List Char) (hasNL : Bool) : Bool :=
  match l with
  | '#' :: rest => headerHashTail hasNL rest 1
  | _ => false

/-- Pair every line with whether a newline follows it (all but the last). -/
def markNL : List (List Char) → List (List Char × Bool)
  | [] => []
  | [l] => [(l, false)]
  | l :: rest => (l, true) :: markNL rest

/-- Group the lines of the document, starting a new group before every
line at which `^#{1,3}\s` matches; this is the lookahead split
`content.split(/(?=^#{1,3}\s)/m)` (an empty leading group stands for the
absent segment before a header at position 0 and is removed by the
trim-nonempty filter below, which also removes it in JavaScript). -/
def groupByHeaders : List (List Char × Bool) → List (List (List Char))
  | [] => [[]]
  | (l, nl) :: rest =>
      match groupByHeaders rest with
      | [] => [[l]]
      | g :: gs =>
          if isHeaderSplitLine l nl then [] :: (l :: g) :: gs
          else (l :: g) :: gs

/-- `content.split(/(?=^#{1,3}\s)/m).filter(section => section.trim())`:
the header segments of the document. -/
def headerSegments (content : List Char) : List (List Char) :=
  ((groupByHeaders (markNL (splitOnNL content))).map joinNL).filter
    (fun s => !(trimChars s).isEmpty)

/-- The replace of the leading header-marker regex by the empty string:
strip up to three leading `#` markers and,
when at least one was present, the whitespace run after them. -/
def stripHeaderMarks (l : List Char) : List Char :=
  let n := min 3 (l.takeWhile (fun c => c = '#')).length
  if n = 0 then l else (l.drop n).dropWhile Char.isWhitespace

/-- Processing of one header segment: the first line (with markers
stripped) is the title, the remaining lines the body; segments with an
empty trimmed body are dropped, and an empty title falls back to
`Section (index+1)`. -/
def headerSectionOf (idx : Nat) (seg : List Char) : Option DocSection :=
  let lines := splitOnNL (trimChars seg)
  let header := trimChars (stripHeaderMarks (lines.headD []))
  let body := trimChars (joinNL lines.tail)
  if body.isEmpty then none
  else
    some ⟨if header.isEmpty then "Section " ++ toString (idx + 1)
          else String.mk header,
          String.mk body, "section"⟩

/-- One entry of the `prdPatterns` table: the start-keyword alternation,
the stop-keyword alternation of the lookahead, and the emitted title. -/
structure PrdPattern where
  startKeys : List String
  stopKeys : List String
  title : String

/-- The `prdPatterns` table of the source, with the regex alternations
spelled out as keyword lists. -/
def prdPatterns : List PrdPattern :=
  [⟨["executive summary", "overview", "summary"],
    ["problem", "solution", "requirements", "success", "metrics", "timeline"],
    "Executive Summary"⟩,
   ⟨["problem statement", "problem", "challenge"],
    ["solution", "requirements", "success", "metrics", "timeline"],
    "Problem Statement"⟩,
   ⟨["solution", "approach", "proposal"],
    ["requirements", "success", "metrics", "timeline"],
    "Solution Approach"⟩,
   ⟨["requirements", "specs", "specifications"],
    ["success", "metrics", "timeline"],
    "Requirements"⟩,
   ⟨["success criteria", "success metrics", "metrics", "kpis"],
    ["timeline"],
    "Success Criteria"⟩]

/-- Leftmost occurrence of any of the (lowercase) keywords in the
lowercased text: returns the start index and the length of the first
alternative that matches there, like the JavaScript regex alternation. -/
def findKeyStart (keys : List String) : List Char → Nat → Option (Nat × Nat)
  | [], i =>
      match keys.find? (fun k => k.toList.isPrefixOf ([] : List Char)) with
      | some k => some (i, k.length)
      | none => none
  | l@(_ :: t), i =>
      match keys.find? (fun k => k.toList.isPrefixOf l) with
      | some k => some (i, k.length)
      | none => findKeyStart keys t (i + 1)

/-- `\s*(?:k1|k2|...)`: some run of leading whitespace followed by one of
the keywords. -/
def wsThenKey (keys : List String) : List Char → Bool
  | [] => keys.any (fun k => k.toList.isPrefixOf ([] : List Char))
  | c :: t =>
      keys.any (fun k => k.toList.isPrefixOf (c :: t)) ||
        (c.isWhitespace && wsThenKey keys t)

/-- The lookahead `(?=\n\s*(?:stop...)|$)` holds at a position iff the
text ends there or a newline followed by optional whitespace and a stop
keyword starts there. -/
def stopHere (stopKeys : List String) : List Char → Bool
  | [] => true
  | '\n' :: t => wsThenKey stopKeys t
  | _ => false

/-- Offset of the first position (scanning this suffix) at which the
lookahead holds; the lazy `[\s\S]*?` expands exactly this far. -/
def findStop (stopKeys : List String) : List Char → Nat
  | [] => 0
  | c :: t => if stopHere stopKeys (c :: t) then 0 else 1 + findStop stopKeys t

/-- `content.match(pattern)` for one PRD pattern, returning
`match[0].trim()`: the match starts at the leftmost occurrence of a start
keyword (case-insensitively) and extends lazily until the lookahead holds
or the text ends. -/
def prdMatch (content : List Char) (pt : PrdPattern) : Option (List Char) :=
  let lcs := content.map Char.toLower
  match findKeyStart pt.startKeys lcs 0 with
  | none => none
  | some (i, klen) =>
      let d := findStop pt.stopKeys (lcs.drop (i + klen))
      some (trimChars ((content.drop i).take (klen + d)))

/-- The PRD-specific fallback: each pattern that matches contributes one
section, in table order. -/
def prdScan (content : List Char) : List DocSection :=
  prdPatterns.foldl
    (fun acc pt =>
      match prdMatch content pt with
      | some m => acc ++ [⟨pt.title, String.mk m, "section"⟩]
      | none => acc)
    []

/-- The paragraph fallback: split on blank-line separators, keep paragraphs whose
trimmed length exceeds 50, and label them `Part 1`, `Part 2`, ... with the
trimmed paragraph as content. -/
def paragraphSections (content : List Char) : List DocSection :=
  ((splitOnBlank content).filter (fun p => 50 < (trimChars p).length)).enum.map
    (fun ip => ⟨"Part " ++ toString (ip.1 + 1), String.mk (trimChars ip.2), "chunk"⟩)

/-- `parseDocumentSections(content, docType)`: header split when it yields
more than one segment; otherwise the PRD pattern fallback (only for
`docType == PRD`); otherwise the paragraph fallback; and finally the
whole-document section when everything else produced nothing. -/
def parseDocumentSections (content docType : String) : List DocSection :=
  let cs := content.toList
  let hs := headerSegments cs
  let sections :=
    if 1 < hs.length then
      hs.enum.filterMap (fun iseg => headerSectionOf iseg.1 iseg.2)
    else
      let s1 := if docType = "PRD" then prdScan cs else []
      if s1.isEmpty then paragraphSections cs else s1
  if sections.isEmpty then [⟨"Complete Document", content, "full"⟩] else sections

/-! ### Document reconstruction ordering (`reconstruct_artifact` in
src/index.ts)

The retrieved sections are sorted with a comparator built from a fixed
priority table, unknown titles getting priority 999, and ties broken by
`localeCompare` on the title (modelled as code-point order on the title
string).  `Array.prototype.sort` with a consistent comparator returns a
permutation of its input that is sorted with respect to the comparator;
it is modelled by insertion sort over the corresponding total preorder. -/

/-- A section as assembled by `reconstruct_artifact`: only the parsed
`SECTION` metadata value (`sectionName`) matters for the ordering. -/
structure ArtifactSection where
  sectionName : String
  content : String
  id : String
deriving DecidableEq, Repr

/-- The fixed priority table (`order` in the source), with the
`|| 999` default for titles not in the table. -/
def sectionPriority (name : String) : Nat :=
  if name = "Executive Summary" then 1
  else if name = "Overview" then 2
  else if name = "Problem Statement" then 3
  else if name = "Solution Approach" then 4
  else if name = "Requirements" then 5
  else if name = "Success Criteria" then 6
  else if name = "Timeline" then 7
  else 999

/-- The comparator of the source as a total preorder: `a` may precede `b`
iff `aOrder - bOrder` is negative, or zero with
`a.sectionName.localeCompare(b.sectionName) <= 0`. -/
def sectionLE (a b : ArtifactSection) : Prop :=
  sectionPriority a.sectionName < sectionPriority b.sectionName ∨
    (sectionPriority a.sectionName = sectionPriority b.sectionName ∧
      a.sectionName.toList ≤ b.sectionName.toList)

instance : DecidableRel sectionLE := fun a b =>
  inferInstanceAs (Decidable (_ ∨ _))

instance : IsTotal ArtifactSection sectionLE where
  total a b := by
    rcases lt_trichotomy (sectionPriority a.sectionName)
        (sectionPriority b.sectionName) with h | h | h
    · exact Or.inl (Or.inl h)
    · rcases le_total a.sectionName.toList b.sectionName.toList with h2 | h2
      · exact Or.inl (Or.inr ⟨h, h2⟩)
      · exact Or.inr (Or.inr ⟨h.symm, h2⟩)
    · exact Or.inr (Or.inl h)

instance : IsTrans ArtifactSection sectionLE where
  trans a b c hab hbc := by
    rcases hab with h1 | ⟨e1, l1⟩
    · rcases hbc with h2 | ⟨e2, _⟩
      · exact Or.inl (h1.trans h2)
      · exact Or.inl (e2 ▸ h1)
    · rcases hbc with h2 | ⟨e2, l2⟩
      · exact Or.inl (e1 ▸ h2)
      · exact Or.inr ⟨e1.trans e2, l1.trans l2⟩

/-- The `sections.sort(...)` call of `reconstruct_artifact`. -/
def sortSections (l : List ArtifactSection) : List ArtifactSection :=
  List.insertionSort sectionLE l

/-! ### Concrete inputs used by witnesses and counterexamples -/

/-- The synthetic score test of the claim: matches with scores
0.3, 0.5, 0.51 and 0.9 against the threshold 0.5. -/
def syntheticMatches : List VectorizeMatch :=
  [⟨"a", mkRat 3 10, some "ca"⟩, ⟨"b", mkRat 1 2, some "cb"⟩,
   ⟨"c", mkRat 51 100, some "cc"⟩, ⟨"d", mkRat 9 10, some "cd"⟩]

/-- An index in which the id `m` occurs in two different namespaces. -/
def sharedIdIndex : List VecIndexEntry :=
  [⟨"m", "alice"⟩, ⟨"m", "bob"⟩, ⟨"x", "alice"⟩]

/-- Concrete sections for the C9 witness: a known title, the last table
title, and two unknown titles that tie on priority 999. -/
def sampleSections : List ArtifactSection :=
  [⟨"Timeline", "t", "1"⟩, ⟨"Appendix", "x", "3"⟩,
   ⟨"Executive Summary", "e", "2"⟩, ⟨"Alpha", "y", "4"⟩]

/-- A D1 row whose embedding call fails in the mixed environment. -/
def mBad : D1Memory := ⟨"a", "bad"⟩

/-- A D1 row whose embedding call succeeds in the mixed environment. -/
def mGood : D1Memory := ⟨"b", "good"⟩

/-- An empty chunk-loop accumulator. -/
def accEmpty : ChunkAcc := ⟨[], 0, []⟩

/-- An environment in which embedding the content `bad` fails, the batch
upsert of chunk 1 fails, and everything else succeeds. -/
def envMixed : ReconcileEnv :=
  { d1 := .ok [mBad, mGood]
    getByIdsFail := fun _ => none
    embedFail := fun c => if c == "bad" then some "boom" else none
    upsertFail := fun i => if i == 1 then some "ufail" else none
    embedVal := fun _ => [] }

/-- An environment whose D1 read fails. -/
def envDown : ReconcileEnv :=
  { d1 := .error "down"
    getByIdsFail := fun _ => none
    embedFail := fun _ => none
    upsertFail := fun _ => none
    embedVal := fun _ => [] }

/-- An environment whose batched existence check fails. -/
def envGFail : ReconcileEnv :=
  { d1 := .ok [mBad]
    getByIdsFail := fun _ => some "gfail"
    embedFail := fun _ => none
    upsertFail := fun _ => none
    embedVal := fun _ => [] }

/-- A document of two blank-line-separated paragraphs: 80 characters of
`a`, and 48 characters of `b` followed by three spaces (raw length 51,
trimmed length 48). -/
def cexParagraphDoc : String :=
  String.mk (List.replicate 80 'a') ++ "\n\n" ++
    String.mk (List.replicate 48 'b' ++ List.replicate 3 ' ')

/-- Plain prose with two 80-character paragraphs and no headers or PRD
keywords. -/
def twoParagraphDoc : String :=
  String.mk (List.replicate 80 'a') ++ "\n\n" ++ String.mk (List.replicate 80 'b')

/-! ## Theorems -/

/-- C2: every element of a `searchMemories` result list has a similarity
score strictly greater than the threshold `MINIMUM_SIMILARITY_SCORE = 0.5`;
a match with score ≤ threshold is never present in the results. -/
theorem searchMemories_respects_threshold (ms : List VectorizeMatch)
    (r : MemoryResult) (hr : r ∈ searchMemories ms) :
    MINIMUM_SIMILARITY_SCORE < r.score := by
  unfold searchMemories at hr
  split at hr
  · simp at hr
  · rw [List.mem_insertionSort] at hr
    simp only [List.mem_map, List.mem_filter, decide_eq_true_eq] at hr
    obtain ⟨m, ⟨hm, hs⟩, rfl⟩ := hr
    simpa [matchToResult] using hs

/-- Witness for C2: on the synthetic scores only the 0.9 and 0.51 matches
are returned (descending), and the threshold theorem applies to a member. -/
theorem searchMemories_respects_threshold_witness :
    (searchMemories syntheticMatches).map MemoryResult.id = ["d", "c"] ∧
    (⟨"cd", mkRat 9 10, "d"⟩ : MemoryResult) ∈ searchMemories syntheticMatches ∧
    MINIMUM_SIMILARITY_SCORE < mkRat 9 10 :=
  ⟨by decide, by decide,
    searchMemories_respects_threshold syntheticMatches
      ⟨"cd", mkRat 9 10, "d"⟩ (by decide)⟩

/-- C3 (code bug): the relational row inserted by the `add_to_memory` store
path does not contain the supplied metadata.  The row is independent of the
`docType` and `metadataJson` arguments the handler passes, and consists of
exactly the id, namespace and content. -/
theorem addToMemory_relational_row_drops_metadata :
    (∀ c u i t m1 m2, addToMemoryRelationalInsert c u i t m1 =
        addToMemoryRelationalInsert c u i t m2) ∧
    addToMemoryRelationalInsert "User prefers dark mode" "u1" "id-1" "memory"
        "title: Prefs, tags: ui" =
      { id := "id-1", userId := "u1", content := "User prefers dark mode" } :=
  ⟨fun _ _ _ _ _ _ => rfl, rfl⟩

/-- C4: the deletion issued to the Vector Index is by id only — the request
is identical for any two namespaces — and under non-partitioned deletion
semantics an entry with the same id in a different namespace is removed. -/
theorem deleteVector_not_namespace_scoped (memoryId u1 u2 : String)
    (index : List VecIndexEntry) (e : VecIndexEntry)
    (he : e ∈ index) (hid : e.id = memoryId) :
    deleteVectorById memoryId u1 = deleteVectorById memoryId u2 ∧
    e ∉ applyDeleteByIds (deleteVectorById memoryId u1) index := by
  refine ⟨rfl, ?_⟩
  intro hmem
  unfold applyDeleteByIds at hmem
  rw [List.mem_filter] at hmem
  simp [deleteVectorById, hid] at hmem

/-- Witness for C4: a deletion of `m` requested by namespace `bob` removes
the entry of namespace `alice` that shares the id. -/
theorem deleteVector_not_namespace_scoped_witness :
    (⟨"m", "alice"⟩ : VecIndexEntry) ∈ sharedIdIndex ∧
    deleteVectorById "m" "bob" = deleteVectorById "m" "alice" ∧
    (⟨"m", "alice"⟩ : VecIndexEntry) ∉
      applyDeleteByIds (deleteVectorById "m" "bob") sharedIdIndex :=
  ⟨by decide,
   (deleteVector_not_namespace_scoped "m" "bob" "alice" sharedIdIndex
      ⟨"m", "alice"⟩ (by decide) rfl).1,
   (deleteVector_not_namespace_scoped "m" "bob" "alice" sharedIdIndex
      ⟨"m", "alice"⟩ (by decide) rfl).2⟩

/-- C1 (counterexample): the claimed invariant — an id in the Vector Index
is always in the Relational Store — is violated by a single store operation
whose relational write fails: the vector upsert has already committed, so
the id exists only in the Vector Index. -/
theorem store_invariant_counterexample :
    "m1" ∈ (runStorePath [("m1", StoreOutcome.relationalFail)] initialState).vec ∧
    "m1" ∉ (runStorePath [("m1", StoreOutcome.relationalFail)] initialState).rel := by
  decide

/-- C1 (amended): with the vector-first write order of the source, the
invariant that actually holds is the mirror image — every id present in
the Relational Store is also present in the Vector Index, for every
sequence of store operations in which any single external write may fail. -/
theorem store_rel_implies_vec (ops : List (String × StoreOutcome))
    (s : DualStoreState) (hs : ∀ i, i ∈ s.rel → i ∈ s.vec) :
    ∀ i, i ∈ (runStorePath ops s).rel → i ∈ (runStorePath ops s).vec := by
  induction ops generalizing s with
  | nil => simpa [runStorePath] using hs
  | cons op rest ih =>
      have h2 : ∀ i, i ∈ (storeStep s op).rel → i ∈ (storeStep s op).vec := by
        intro i hi
        cases hop : op.2 <;> simp [storeStep, hop] at hi ⊢ <;> tauto
      simpa [runStorePath, List.foldl_cons] using ih (storeStep s op) h2

/-- Witness for the amended C1: on a run with one successful store and one
failed relational write, the successfully stored id is in both stores. -/
theorem store_rel_implies_vec_witness :
    (∀ i, i ∈ initialState.rel → i ∈ initialState.vec) ∧
    "m1" ∈ (runStorePath [("m1", StoreOutcome.ok),
        ("m2", StoreOutcome.relationalFail)] initialState).vec :=
  ⟨fun i hi => absurd hi (List.not_mem_nil i),
   store_rel_implies_vec [("m1", StoreOutcome.ok),
       ("m2", StoreOutcome.relationalFail)] initialState
     (fun i hi => absurd hi (List.not_mem_nil i)) "m1" (by decide)⟩

/-- C7: with `documentType` omitted, the type is inferred by a
case-insensitive keyword scan against the ordered rule set (PRD keywords,
then TechnicalSpec keywords, then FeatureRequest keywords, then Journal,
default Documentation), and the first matching rule wins: the if/else
chain of the source computes exactly the first-match semantics of the
listed rules. -/
theorem detectDocumentType_first_match (content : String) :
    detectDocumentType content = inferTypeByRules content := by
  unfold detectDocumentType inferTypeByRules documentTypeRules
  simp only [List.find?, List.any_cons, List.any_nil, Bool.or_false]
  cases h1 : containsKeyword (content.toList.map Char.toLower) "product requirements" <;>
  cases h2 : containsKeyword (content.toList.map Char.toLower) "user stories" <;>
  cases h3 : containsKeyword (content.toList.map Char.toLower) "acceptance criteria" <;>
  cases h4 : containsKeyword (content.toList.map Char.toLower) "technical specification" <;>
  cases h5 : containsKeyword (content.toList.map Char.toLower) "architecture" <;>
  cases h6 : containsKeyword (content.toList.map Char.toLower) "api reference" <;>
  cases h7 : containsKeyword (content.toList.map Char.toLower) "feature request" <;>
  cases h8 : containsKeyword (content.toList.map Char.toLower) "user story" <;>
  cases h9 : containsKeyword (content.toList.map Char.toLower) "journal" <;>
  simp [h1, h2, h3, h4, h5, h6, h7, h8, h9]

/-- C9: the reconstruction order is sorted with respect to the priority
table comparator (priority first, then title order for ties), the sorted
list is a permutation of the retrieved sections, the table assigns the
seven listed priorities, and every title outside the table gets 999. -/
theorem reconstruct_section_order (l : List ArtifactSection) :
    List.Sorted sectionLE (sortSections l) ∧
    List.Perm (sortSections l) l ∧
    sectionPriority "Executive Summary" = 1 ∧
    sectionPriority "Overview" = 2 ∧
    sectionPriority "Problem Statement" = 3 ∧
    sectionPriority "Solution Approach" = 4 ∧
    sectionPriority "Requirements" = 5 ∧
    sectionPriority "Success Criteria" = 6 ∧
    sectionPriority "Timeline" = 7 ∧
    (∀ n, n ∉ ["Executive Summary", "Overview", "Problem Statement",
        "Solution Approach", "Requirements", "Success Criteria", "Timeline"] →
      sectionPriority n = 999) := by
  refine ⟨List.sorted_insertionSort sectionLE l, List.perm_insertionSort sectionLE l,
    rfl, rfl, rfl, rfl, rfl, rfl, rfl, ?_⟩
  intro n hn
  simp only [List.mem_cons, List.not_mem_nil, or_false, not_or] at hn
  obtain ⟨n1, n2, n3, n4, n5, n6, n7⟩ := hn
  simp [sectionPriority, n1, n2, n3, n4, n5, n6, n7]

/-- Witness for C9: an unknown title gets priority 999, and the sample
sections sort into table order with the 999 tie broken by title order. -/
theorem reconstruct_section_order_witness :
    ("Appendix" ∉ ["Executive Summary", "Overview", "Problem Statement",
        "Solution Approach", "Requirements", "Success Criteria", "Timeline"]) ∧
    sectionPriority "Appendix" = 999 ∧
    sortSections sampleSections =
      [⟨"Executive Summary", "e", "2"⟩, ⟨"Timeline", "t", "1"⟩,
       ⟨"Alpha", "y", "4"⟩, ⟨"Appendix", "x", "3"⟩] :=
  ⟨by decide,
   (reconstruct_section_order sampleSections).2.2.2.2.2.2.2.2.2 "Appendix" (by decide),
   by decide⟩

/-! ## Reconciliation lemmas -/

/-- A vector id exists after a single upsert iff it existed before or is
the upserted id. -/
theorem vecHasId_upsertOne (st : List VectorRecord) (v : VectorRecord)
    (i : String) :
    vecHasId (upsertOne st v) i = true ↔ (vecHasId st i = true ∨ v.id = i) := by
  simp only [vecHasId, upsertOne, List.any_eq_true, List.mem_append,
    List.mem_filter, List.mem_singleton, beq_iff_eq, Bool.not_eq_true',
    beq_eq_false_iff_ne]
  constructor
  · rintro ⟨w, hw, hwi⟩
    rcases hw with ⟨hw, -⟩ | rfl
    · exact Or.inl ⟨w, hw, hwi⟩
    · exact Or.inr hwi
  · rintro (⟨w, hw, hwi⟩ | hvi)
    · by_cases hw2 : w.id = v.id
      · exact ⟨v, Or.inr rfl, hw2 ▸ hwi⟩
      · exact ⟨w, Or.inl ⟨hw, hw2⟩, hwi⟩
    · exact ⟨v, Or.inr rfl, hvi⟩

/-- A vector id exists after a batch upsert iff it existed before or is
one of the upserted ids. -/
theorem vecHasId_upsertAll (vs : List VectorRecord) (st : List VectorRecord)
    (i : String) :
    vecHasId (upsertAll st vs) i = true ↔
      (vecHasId st i = true ∨ ∃ v ∈ vs, v.id = i) := by
  induction vs generalizing st with
  | nil => simp [upsertAll]
  | cons v t ih =>
      show vecHasId (upsertAll (upsertOne st v) t) i = true ↔ _
      rw [ih, vecHasId_upsertOne]
      simp only [List.mem_cons]
      constructor
      · rintro ((h | h) | ⟨w, hw, hwi⟩)
        · exact Or.inl h
        · exact Or.inr ⟨v, Or.inl rfl, h⟩
        · exact Or.inr ⟨w, Or.inr hw, hwi⟩
      · rintro (h | ⟨w, rfl | hw, hwi⟩)
        · exact Or.inl (Or.inl h)
        · exact Or.inl (Or.inr hwi)
        · exact Or.inr ⟨w, hw, hwi⟩

/-- Characterization of the embedding loop: the batch contains exactly the
missing rows whose embedding call succeeds (in order, with the embedded
values), and the error list contains exactly one entry per failing row. -/
theorem embedMissingLoop_eq (env : ReconcileEnv) (u : String)
    (missing : List D1Memory) :
    embedMissingLoop env u missing =
      ((missing.filter (fun m => (env.embedFail m.content).isNone)).map
          (fun m => (⟨m.id, env.embedVal m.content, u, m.content⟩ : VectorRecord)),
        missing.filterMap (fun m => (env.embedFail m.content).map
          (fun e => (⟨m.id, "Failed to generate embedding: " ++ e⟩ : RestoreError)))) := by
  unfold embedMissingLoop
  suffices h : ∀ acc : List VectorRecord × List RestoreError,
      missing.foldl
        (fun acc m =>
          match env.embedFail m.content with
          | some e => (acc.1, acc.2 ++ [⟨m.id, "Failed to generate embedding: " ++ e⟩])
          | none => (acc.1 ++ [⟨m.id, env.embedVal m.content, u, m.content⟩], acc.2))
        acc =
      (acc.1 ++ (missing.filter (fun m => (env.embedFail m.content).isNone)).map
          (fun m => (⟨m.id, env.embedVal m.content, u, m.content⟩ : VectorRecord)),
        acc.2 ++ missing.filterMap (fun m => (env.embedFail m.content).map
          (fun e => (⟨m.id, "Failed to generate embedding: " ++ e⟩ : RestoreError)))) by
    simpa using h ([], [])
  induction missing with
  | nil => intro acc; simp
  | cons m t ih =>
      intro acc
      cases he : env.embedFail m.content <;>
        simp [List.foldl_cons, he, ih, List.filter_cons, List.filterMap_cons]

/-- Unfolding of `processChunk` when no external call of this chunk fails:
the missing rows are all embedded and batch-upserted, `restored` grows by
their number, and no error is recorded. -/
theorem processChunk_all_ok (env : ReconcileEnv) (u : String) (acc : ChunkAcc)
    (idx : Nat) (chunk : List D1Memory)
    (hg : env.getByIdsFail idx = none) (hu : env.upsertFail idx = none)
    (he : ∀ c, env.embedFail c = none) :
    processChunk env u acc idx chunk =
      if (chunk.filter (fun m => !(vecHasId acc.st m.id))).isEmpty then acc
      else
        { st := upsertAll acc.st
            ((chunk.filter (fun m => !(vecHasId acc.st m.id))).map
              (fun m => ⟨m.id, env.embedVal m.content, u, m.content⟩))
          restored := acc.restored +
            ((chunk.filter (fun m => !(vecHasId acc.st m.id))).map
              (fun m => (⟨m.id, env.embedVal m.content, u, m.content⟩ : VectorRecord))).length
          errors := acc.errors } := by
  have hfilter : (chunk.filter (fun m => !(vecHasId acc.st m.id))).filter
      (fun m => (env.embedFail m.content).isNone) =
      chunk.filter (fun m => !(vecHasId acc.st m.id)) :=
    List.filter_eq_self.mpr (fun m _ => by simp [he])
  have hmap : ((chunk.filter (fun m => !(vecHasId acc.st m.id))).filterMap
      (fun m => (env.embedFail m.content).map
        (fun e => (⟨m.id, "Failed to generate embedding: " ++ e⟩ : RestoreError)))) = [] :=
    List.filterMap_eq_nil_iff.mpr (fun m _ => by rw [he]; rfl)
  simp only [processChunk, hg, hu, embedMissingLoop_eq, hfilter, hmap, List.append_nil]
  by_cases hm : (chunk.filter (fun m => !(vecHasId acc.st m.id))).isEmpty
  · rw [if_pos hm, if_pos hm]
  · rw [if_neg hm, if_neg hm, if_neg]
    intro hmapempty
    exact hm (by simpa using hmapempty)

/-- With a fully successful external world, one chunk step preserves
existing vector ids and makes every id of the chunk exist. -/
theorem processChunk_ok_covers (env : ReconcileEnv) (u : String) (acc : ChunkAcc)
    (idx : Nat) (chunk : List D1Memory)
    (hg : env.getByIdsFail idx = none) (hu : env.upsertFail idx = none)
    (he : ∀ c, env.embedFail c = none) :
    (∀ i, vecHasId acc.st i = true →
      vecHasId (processChunk env u acc idx chunk).st i = true) ∧
    (∀ m ∈ chunk, vecHasId (processChunk env u acc idx chunk).st m.id = true) := by
  rw [processChunk_all_ok env u acc idx chunk hg hu he]
  by_cases hm : (chunk.filter (fun m => !(vecHasId acc.st m.id))).isEmpty
  · rw [if_pos hm]
    refine ⟨fun i h => h, ?_⟩
    intro m hmem
    have h2 := List.filter_eq_nil_iff.mp (List.isEmpty_iff.mp hm) m hmem
    simpa using h2
  · rw [if_neg hm]
    refine ⟨fun i h => (vecHasId_upsertAll _ _ _).mpr (Or.inl h), ?_⟩
    intro m hmem
    by_cases hin : vecHasId acc.st m.id = true
    · exact (vecHasId_upsertAll _ _ _).mpr (Or.inl hin)
    · refine (vecHasId_upsertAll _ _ _).mpr (Or.inr ?_)
      refine ⟨⟨m.id, env.embedVal m.content, u, m.content⟩, ?_, rfl⟩
      exact List.mem_map_of_mem _
        (List.mem_filter.mpr ⟨hmem, by simp [Bool.eq_false_iff.mpr hin]⟩)

/-- With a fully successful external world, a chunk all of whose ids
already exist is a no-op, as in the `continue` branch of the source. -/
theorem processChunk_ok_noop (env : ReconcileEnv) (u : String) (acc : ChunkAcc)
    (idx : Nat) (chunk : List D1Memory)
    (hg : env.getByIdsFail idx = none) (hu : env.upsertFail idx = none)
    (he : ∀ c, env.embedFail c = none)
    (hall : ∀ m ∈ chunk, vecHasId acc.st m.id = true) :
    processChunk env u acc idx chunk = acc := by
  rw [processChunk_all_ok env u acc idx chunk hg hu he, if_pos]
  rw [List.isEmpty_iff]
  exact List.filter_eq_nil_iff.mpr (fun m hm => by simp [hall m hm])

/-- Chunk-loop version of `processChunk_ok_covers`. -/
theorem processChunks_ok_covers (env : ReconcileEnv) (u : String)
    (hg : ∀ idx, env.getByIdsFail idx = none)
    (hu : ∀ idx, env.upsertFail idx = none)
    (he : ∀ c, env.embedFail c = none) :
    ∀ (ics : List (Nat × List D1Memory)) (acc : ChunkAcc),
      (∀ i, vecHasId acc.st i = true →
        vecHasId (processChunks env u ics acc).st i = true) ∧
      (∀ m c, c ∈ ics.map Prod.snd → m ∈ c →
        vecHasId (processChunks env u ics acc).st m.id = true) := by
  intro ics
  induction ics with
  | nil =>
      intro acc
      exact ⟨fun i h => h, by simp⟩
  | cons p rest ih =>
      intro acc
      obtain ⟨idx, chunk⟩ := p
      have h1 := processChunk_ok_covers env u acc idx chunk (hg idx) (hu idx) he
      have ih2 := ih (processChunk env u acc idx chunk)
      refine ⟨fun i h => ih2.1 i (h1.1 i h), ?_⟩
      intro m c hc hm
      simp only [List.map_cons, List.mem_cons] at hc
      rcases hc with rfl | hc
      · exact ih2.1 m.id (h1.2 m hm)
      · exact ih2.2 m c hc hm

/-- Chunk-loop version of `processChunk_ok_noop`. -/
theorem processChunks_ok_noop (env : ReconcileEnv) (u : String)
    (hg : ∀ idx, env.getByIdsFail idx = none)
    (hu : ∀ idx, env.upsertFail idx = none)
    (he : ∀ c, env.embedFail c = none) :
    ∀ (ics : List (Nat × List D1Memory)) (acc : ChunkAcc),
      (∀ c ∈ ics.map Prod.snd, ∀ m ∈ c, vecHasId acc.st m.id = true) →
      processChunks env u ics acc = acc := by
  intro ics
  induction ics with
  | nil => intro acc _; rfl
  | cons p rest ih =>
      intro acc hall
      obtain ⟨idx, chunk⟩ := p
      have hchunk : processChunk env u acc idx chunk = acc :=
        processChunk_ok_noop env u acc idx chunk (hg idx) (hu idx) he
          (fun m hm => hall chunk (by simp) m hm)
      show processChunks env u rest (processChunk env u acc idx chunk) = acc
      rw [hchunk]
      exact ih acc (fun c hc m hm => hall c (by simp [hc]) m hm)

/-- Joining the chunks gives back the original list (auxiliary, by
induction on a length bound). -/
theorem chunksOf_join_aux {α : Type} (n : Nat) :
    ∀ l : List α, l.length ≤ n → (chunksOf l).flatten = l := by
  induction n with
  | zero =>
      intro l hl
      have h0 : l = [] := List.length_eq_zero.mp (Nat.le_zero.mp hl)
      subst h0
      simp [chunksOf]
  | succ n ih =>
      intro l hl
      match l with
      | [] => simp [chunksOf]
      | a :: rest =>
          have hrec := ih ((a :: rest).drop CHUNK_SIZE)
            (by
              simp only [List.length_drop, List.length_cons, CHUNK_SIZE] at hl ⊢
              omega)
          simp only [chunksOf, List.flatten_cons]
          rw [hrec]
          exact List.take_append_drop _ _

/-- Joining the chunks gives back the original list. -/
theorem chunksOf_flatten {α : Type} (l : List α) : (chunksOf l).flatten = l :=
  chunksOf_join_aux l.length l le_rfl

/-- C5: reconciliation is idempotent.  After a pass in which every external
call succeeded (so every missing vector was restored) and with no writes in
between, a second `restoreMissingMemoriesToVectorize` call finds no missing
ids and returns `restored: 0` with no errors, leaving the index unchanged. -/
theorem reconcile_idempotent (rows : List D1Memory) (emb : String → List ℚ)
    (u : String) (st : List VectorRecord) :
    restoreMissingMemoriesToVectorize (okEnv rows emb) u
        (restoreMissingMemoriesToVectorize (okEnv rows emb) u st).1 =
      ((restoreMissingMemoriesToVectorize (okEnv rows emb) u st).1,
        ⟨0, []⟩) := by
  have hd : (okEnv rows emb).d1 = Except.ok rows := rfl
  unfold restoreMissingMemoriesToVectorize
  simp only [hd]
  by_cases hrow : rows.isEmpty
  · simp only [hrow, if_true]
  · simp only [if_neg hrow]
    have hcov := (processChunks_ok_covers (okEnv rows emb) u (fun _ => rfl)
        (fun _ => rfl) (fun _ => rfl) (chunksOf rows).enum ⟨st, 0, []⟩).2
    have hno := processChunks_ok_noop (okEnv rows emb) u (fun _ => rfl)
        (fun _ => rfl) (fun _ => rfl) (chunksOf rows).enum
        ⟨(processChunks (okEnv rows emb) u (chunksOf rows).enum ⟨st, 0, []⟩).st, 0, []⟩
        (fun c hc m hm => hcov m c hc hm)
    rw [hno]

/-- C6: during reconciliation, every per-item embedding failure is recorded
as an `{memoryId, error}` entry and that item is excluded from the batch
upsert (the batch and error lists partition the missing rows, so no item is
retried within the call); `restored` grows exactly by the size of a batch
that was actually upserted successfully, and not at all when the batch
upsert fails. -/
theorem reconcile_embed_failures_excluded (env : ReconcileEnv) (u : String)
    (idx : Nat) (chunk : List D1Memory) (acc : ChunkAcc) (e : String) :
    (embedMissingLoop env u (chunk.filter (fun m => !(vecHasId acc.st m.id)))).2 =
      (chunk.filter (fun m => !(vecHasId acc.st m.id))).filterMap
        (fun m => (env.embedFail m.content).map
          (fun er => (⟨m.id, "Failed to generate embedding: " ++ er⟩ : RestoreError))) ∧
    (embedMissingLoop env u
        (chunk.filter (fun m => !(vecHasId acc.st m.id)))).1.map VectorRecord.id =
      ((chunk.filter (fun m => !(vecHasId acc.st m.id))).filter
        (fun m => (env.embedFail m.content).isNone)).map D1Memory.id ∧
    (env.getByIdsFail idx = none → env.upsertFail idx = none →
      (processChunk env u acc idx chunk).restored =
        acc.restored +
          (embedMissingLoop env u
            (chunk.filter (fun m => !(vecHasId acc.st m.id)))).1.length) ∧
    (env.getByIdsFail idx = none → env.upsertFail idx = some e →
      (processChunk env u acc idx chunk).restored = acc.restored) := by
  refine ⟨?_, ?_, ?_, ?_⟩
  · rw [embedMissingLoop_eq]
  · rw [embedMissingLoop_eq]
    simp [List.map_map]
  · intro hg hu
    simp only [processChunk, hg, hu]
    by_cases hm : (chunk.filter (fun m => !(vecHasId acc.st m.id))).isEmpty
    · rw [if_pos hm]
      have : (chunk.filter (fun m => !(vecHasId acc.st m.id))) = [] :=
        List.isEmpty_iff.mp hm
      rw [this]
      rfl
    · rw [if_neg hm]
      by_cases hp : (embedMissingLoop env u
          (chunk.filter (fun m => !(vecHasId acc.st m.id)))).1.isEmpty
      · rw [if_pos hp]
        have : (embedMissingLoop env u
            (chunk.filter (fun m => !(vecHasId acc.st m.id)))).1 = [] :=
          List.isEmpty_iff.mp hp
        rw [this]
        rfl
      · rw [if_neg hp]
  · intro hg hu
    simp only [processChunk, hg, hu]
    by_cases hm : (chunk.filter (fun m => !(vecHasId acc.st m.id))).isEmpty
    · rw [if_pos hm]
    · rw [if_neg hm]
      by_cases hp : (embedMissingLoop env u
          (chunk.filter (fun m => !(vecHasId acc.st m.id)))).1.isEmpty
      · rw [if_pos hp]
      · rw [if_neg hp]

/-- Witness for C6: with one failing and one succeeding embedding, the
error list holds exactly the failing id, the batch holds exactly the
succeeding id, `restored` grows by the batch size when the upsert
succeeds, and stays unchanged when the upsert fails. -/
theorem reconcile_embed_failures_excluded_witness :
    envMixed.getByIdsFail 0 = none ∧
    envMixed.upsertFail 0 = none ∧
    envMixed.upsertFail 1 = some "ufail" ∧
    (embedMissingLoop envMixed "u" ([mBad, mGood].filter
        (fun m => !(vecHasId accEmpty.st m.id)))).2 =
      [⟨"a", "Failed to generate embedding: boom"⟩] ∧
    (embedMissingLoop envMixed "u" ([mBad, mGood].filter
        (fun m => !(vecHasId accEmpty.st m.id)))).1.map VectorRecord.id = ["b"] ∧
    (processChunk envMixed "u" accEmpty 0 [mBad, mGood]).restored =
      accEmpty.restored + (embedMissingLoop envMixed "u" ([mBad, mGood].filter
        (fun m => !(vecHasId accEmpty.st m.id)))).1.length ∧
    (processChunk envMixed "u" accEmpty 1 [mBad, mGood]).restored =
      accEmpty.restored :=
  ⟨rfl, rfl, rfl, by decide, by decide,
   (reconcile_embed_failures_excluded envMixed "u" 0 [mBad, mGood] accEmpty
      "x").2.2.1 rfl rfl,
   (reconcile_embed_failures_excluded envMixed "u" 1 [mBad, mGood] accEmpty
      "ufail").2.2.2 rfl rfl⟩

/-- C10: the reconciliation operation is total at its interface and
converts every underlying failure into `{memoryId, error}` entries: a
failing D1 read yields the single `unknown` entry and `restored: 0`; a
failing existence check yields one entry per row of the chunk; a failing
per-item embedding call yields an entry for that id; and a failing batch
upsert yields one entry per row of the chunk.  (The embedding itself is a
total function of the modelled external world, so it returns a
`{restored, errors}` record on every input.) -/
theorem reconcile_total_error_conversion (env : ReconcileEnv) (u : String)
    (st : List VectorRecord) (idx : Nat) (chunk : List D1Memory)
    (acc : ChunkAcc) (m : D1Memory) (e : String) :
    (env.d1 = .error e →
      restoreMissingMemoriesToVectorize env u st =
        (st, ⟨0, [⟨"unknown", "Failed to get memories from D1: " ++ e⟩]⟩)) ∧
    (env.getByIdsFail idx = some e → m ∈ chunk →
      (⟨m.id, "Chunk processing failed: " ++ e⟩ : RestoreError) ∈
        (processChunk env u acc idx chunk).errors) ∧
    (env.getByIdsFail idx = none → m ∈ chunk → vecHasId acc.st m.id = false →
      env.embedFail m.content = some e →
      (⟨m.id, "Failed to generate embedding: " ++ e⟩ : RestoreError) ∈
        (processChunk env u acc idx chunk).errors) ∧
    (env.getByIdsFail idx = none → env.upsertFail idx = some e → m ∈ chunk →
      (embedMissingLoop env u
        (chunk.filter (fun m2 => !(vecHasId acc.st m2.id)))).1 ≠ [] →
      (⟨m.id, "Chunk processing failed: " ++ e⟩ : RestoreError) ∈
        (processChunk env u acc idx chunk).errors) := by
  refine ⟨?_, ?_, ?_, ?_⟩
  · intro hd
    unfold restoreMissingMemoriesToVectorize
    simp only [hd]
  · intro hg hm
    simp only [processChunk, hg]
    simp only [List.mem_append, List.mem_map]
    exact Or.inr ⟨m, hm, rfl⟩
  · intro hg hm hmiss hef
    have hmem : m ∈ chunk.filter (fun m2 => !(vecHasId acc.st m2.id)) :=
      List.mem_filter.mpr ⟨hm, by simp [hmiss]⟩
    have hentry : (⟨m.id, "Failed to generate embedding: " ++ e⟩ : RestoreError) ∈
        (embedMissingLoop env u
          (chunk.filter (fun m2 => !(vecHasId acc.st m2.id)))).2 := by
      rw [embedMissingLoop_eq]
      exact List.mem_filterMap.mpr ⟨m, hmem, by rw [hef]; rfl⟩
    simp only [processChunk, hg]
    have hne : ¬(chunk.filter (fun m2 => !(vecHasId acc.st m2.id))).isEmpty := by
      intro habs
      rw [List.isEmpty_iff.mp habs] at hmem
      exact absurd hmem (List.not_mem_nil m)
    rw [if_neg hne]
    by_cases hp : (embedMissingLoop env u
        (chunk.filter (fun m2 => !(vecHasId acc.st m2.id)))).1.isEmpty
    · rw [if_pos hp]
      simp only [List.mem_append]
      exact Or.inr hentry
    · rw [if_neg hp]
      cases hup : env.upsertFail idx with
      | some e2 =>
          simp only [List.mem_append]
          exact Or.inl (Or.inr hentry)
      | none =>
          simp only [List.mem_append]
          exact Or.inr hentry
  · intro hg hup hm hne
    simp only [processChunk, hg, hup]
    have hne2 : ¬(chunk.filter (fun m2 => !(vecHasId acc.st m2.id))).isEmpty := by
      intro habs
      apply hne
      rw [embedMissingLoop_eq]
      simp [List.isEmpty_iff.mp habs]
    rw [if_neg hne2, if_neg (by simpa using hne)]
    simp only [List.mem_append, List.mem_map]
    exact Or.inr ⟨m, hm, rfl⟩

/-- Witness for C10: each failure kind, at a concrete input, produces its
error entries through the corresponding branch of the theorem. -/
theorem reconcile_total_error_conversion_witness :
    restoreMissingMemoriesToVectorize envDown "u" [] =
      ([], ⟨0, [⟨"unknown", "Failed to get memories from D1: down"⟩]⟩) ∧
    (⟨"a", "Chunk processing failed: gfail"⟩ : RestoreError) ∈
      (processChunk envGFail "u" accEmpty 0 [mBad]).errors ∧
    (⟨"a", "Failed to generate embedding: boom"⟩ : RestoreError) ∈
      (processChunk envMixed "u" accEmpty 0 [mBad, mGood]).errors ∧
    (⟨"a", "Chunk processing failed: ufail"⟩ : RestoreError) ∈
      (processChunk envMixed "u" accEmpty 1 [mBad, mGood]).errors :=
  ⟨(reconcile_total_error_conversion envDown "u" [] 0 [] accEmpty mBad "down").1 rfl,
   (reconcile_total_error_conversion envGFail "u" [] 0 [mBad] accEmpty mBad
      "gfail").2.1 rfl (by decide),
   (reconcile_total_error_conversion envMixed "u" [] 0 [mBad, mGood] accEmpty mBad
      "boom").2.2.1 rfl (by decide) (by decide) rfl,
   (reconcile_total_error_conversion envMixed "u" [] 1 [mBad, mGood] accEmpty mBad
      "ufail").2.2.2 rfl rfl (by decide) (by decide)⟩

/-- C8 (counterexample): the paragraph fallback does not keep every
paragraph longer than 50 characters.  The second paragraph of
`cexParagraphDoc` has raw length 51 > 50, yet only one `Part` section is
produced, because the source filters on `p.trim().length > 50` and the
trimmed length is 48. -/
theorem paragraph_fallback_counterexample :
    50 < (String.mk (List.replicate 48 'b' ++ List.replicate 3 ' ')).length ∧
    splitOnBlank cexParagraphDoc.toList =
      [List.replicate 80 'a', List.replicate 48 'b' ++ List.replicate 3 ' '] ∧
    (parseDocumentSections cexParagraphDoc "Documentation").map DocSection.title =
      ["Part 1"] := by
  decide

/-- C8 (amended): when the header split yields at most one segment and the
PRD fallback yields no sections, decomposition splits on blank-line
separators, keeps
exactly the paragraphs whose TRIMMED length exceeds 50 characters, and
labels them sequentially `Part 1`, `Part 2`, ... -/
theorem paragraph_fallback_trimmed (content docType : String)
    (h1 : (headerSegments content.toList).length ≤ 1)
    (h2 : (if docType = "PRD" then prdScan content.toList else []) = [])
    (h3 : paragraphSections content.toList ≠ []) :
    parseDocumentSections content docType = paragraphSections content.toList ∧
    ∀ i, ∀ hi : i < (paragraphSections content.toList).length,
      ((paragraphSections content.toList).get ⟨i, hi⟩).title =
        "Part " ++ toString (i + 1) := by
  have hlt : ¬ 1 < (headerSegments content.toList).length := by omega
  have hpe : ¬ ((paragraphSections content.toList).isEmpty = true) := by
    simpa [List.isEmpty_iff] using h3
  constructor
  · simp only [parseDocumentSections]
    rw [if_neg hlt, h2]
    simp only [List.isEmpty_nil, eq_self_iff_true, if_true]
    rw [if_neg hpe]
  · intro i hi
    unfold paragraphSections at hi ⊢
    rw [List.get_eq_getElem, List.getElem_map, List.getElem_enum]

/-- Witness for the amended C8: on two 80-character paragraphs the
decomposition is the paragraph fallback and yields exactly the sections
`Part 1` and `Part 2`. -/
theorem paragraph_fallback_trimmed_witness :
    (headerSegments twoParagraphDoc.toList).length ≤ 1 ∧
    (if "Documentation" = "PRD" then prdScan twoParagraphDoc.toList else []) = [] ∧
    paragraphSections twoParagraphDoc.toList ≠ [] ∧
    parseDocumentSections twoParagraphDoc "Documentation" =
      paragraphSections twoParagraphDoc.toList ∧
    (paragraphSections twoParagraphDoc.toList).map DocSection.title =
      ["Part 1", "Part 2"] :=
  ⟨by decide, by decide, by decide,
   (paragraph_fallback_trimmed twoParagraphDoc "Documentation"
      (by decide) (by decide) (by decide)).1,
   by decide⟩
